import Mathlib

/-!
# Verification of the tidaloader download-queue core

Shallow embedding of the download queue store (`useDownloadStore`,
`src/unnamed/part_001`) and the client-side download manager
(`DownloadManager`, `src/frontend/src/hooks/useTheme.js`, second document),
together with proofs settling the frozen claims about them.

Conventions of the embedding:
* JS arrays become `List`, objects become structures, `undefined` fields
  become `Option`.
* Every call site of `Date.now()` inside one store mutator is modelled as a
  single `now : Nat` argument (all such calls inside one synchronous mutator
  body observe the same millisecond clock).
* JS template literals over numbers (`` `${c}-${t}` ``) are modelled by a
  decimal renderer `natChars` over `List Char`.
-/

/-- A track descriptor as supplied by the callers of `addToQueue`
(e.g. `handleDownloadTracks` in the artist page): catalog id, title, artist. -/
structure Track where
  tidal_id : Nat
  title : String
  artist : String
deriving DecidableEq

/-- Lifecycle status of a queue item (the `status` string field). -/
inductive Status where
  | queued
  | downloading
  | completed
  | failed
deriving DecidableEq

/-- Decimal digit character, `d` is expected to be `< 10`. -/
def digitChar (d : Nat) : Char := Char.ofNat (48 + d)

/-- Fuel-indexed decimal renderer (structural recursion on the fuel so that
the kernel can evaluate it; `natChars` supplies enough fuel and
`natChars_eq` recovers the natural recursion equation). -/
def natCharsAux : Nat → Nat → List Char
  | 0, n => [digitChar n]
  | fuel + 1, n =>
    if n < 10 then [digitChar n]
    else natCharsAux fuel (n / 10) ++ [digitChar (n % 10)]

/-- Decimal rendering of a natural number as JS number-to-string coercion
produces inside a template literal. -/
def natChars (n : Nat) : List Char := natCharsAux n n

/-- The generated item id: the JS expression `` `${track.tidal_id}-${Date.now()}` ``
from `addToQueue`. -/
def mkId (c t : Nat) : String := ⟨natChars c ++ '-' :: natChars t⟩

/-- Uncurried form of `mkId`, used to speak about (catalog id, timestamp) pairs. -/
def mkIdP (p : Nat × Nat) : String := mkId p.1 p.2

/-- A queue item: the spread of the descriptor plus the lifecycle fields the
store mutators attach (`id`, `status`, `progress`, timestamps, `error`,
`filename`). -/
structure QueueItem where
  tidal_id : Nat
  title : String
  artist : String
  id : String
  status : Status
  progress : Nat
  addedAt : Nat
  startedAt : Option Nat
  completedAt : Option Nat
  failedAt : Option Nat
  error : Option String
  filename : Option String
deriving DecidableEq

/-- The Zustand store state: the four collections plus settings. -/
structure StoreState where
  queue : List QueueItem
  downloading : List QueueItem
  completed : List QueueItem
  failed : List QueueItem
  quality : String
  maxConcurrent : Nat
deriving DecidableEq

/-- The store's initial state (`queue: [] , ... , quality: "LOSSLESS", maxConcurrent: 3`). -/
def initialStore : StoreState :=
  { queue := [], downloading := [], completed := [], failed := []
  , quality := "LOSSLESS", maxConcurrent := 3 }

/-- The `existingIds` set of `addToQueue`: catalog ids present in
`queue`, `downloading` and `completed`. -/
def existingCatalogIds (s : StoreState) : List Nat :=
  (s.queue ++ s.downloading ++ s.completed).map (·.tidal_id)

/-- The descriptors of a batch that survive the duplicate filter of
`addToQueue` (`tracks.filter((track) => !existingIds.has(track.tidal_id))`). -/
def survivors (tracks : List Track) (s : StoreState) : List Track :=
  tracks.filter (fun tr => decide (tr.tidal_id ∉ existingCatalogIds s))

/-- The fresh queue item built for a surviving descriptor:
`{...track, id: ..., status: "queued", progress: 0, addedAt: Date.now()}`. -/
def mkItem (now : Nat) (tr : Track) : QueueItem :=
  { tidal_id := tr.tidal_id, title := tr.title, artist := tr.artist
  , id := mkId tr.tidal_id now, status := .queued, progress := 0
  , addedAt := now, startedAt := none, completedAt := none, failedAt := none
  , error := none, filename := none }

/-- `addToQueue(tracks)`: filters out catalog ids already present in
queue/downloading/completed, builds fresh items for the survivors, appends
them to `queue`.  Returns the state unchanged when no track survives. -/
def addToQueue (tracks : List Track) (now : Nat) (s : StoreState) : StoreState :=
  let newTracks := (survivors tracks s).map (mkItem now)
  if newTracks.isEmpty then s
  else { s with queue := s.queue ++ newTracks }

/-- The count logged by `addToQueue` as the number of tracks added
(`newTracks.length`). -/
def addedCount (tracks : List Track) (s : StoreState) : Nat :=
  (survivors tracks s).length

/-- The count logged by `addToQueue` as the number of duplicates skipped
(`tracks.length - newTracks.length`). -/
def duplicateCount (tracks : List Track) (s : StoreState) : Nat :=
  tracks.length - addedCount tracks s

/-- `removeFromQueue(trackId)`: drops matching items from `queue` only. -/
def removeFromQueue (i : String) (s : StoreState) : StoreState :=
  { s with queue := s.queue.filter (fun t => decide (t.id ≠ i)) }

/-- `startDownload(trackId)`: moves the first matching item from `queue` to
`downloading`, stamping `status: "downloading"` and `startedAt`; state
unchanged when the id is absent from `queue`. -/
def startDownload (i : String) (now : Nat) (s : StoreState) : StoreState :=
  match s.queue.find? (fun t => decide (t.id = i)) with
  | none => s
  | some track =>
    { s with
      queue := s.queue.filter (fun t => decide (t.id ≠ i)),
      downloading := s.downloading ++
        [{ track with status := .downloading, startedAt := some now }] }

/-- `updateProgress(trackId, progress)`: in-place progress update of the
matching `downloading` item. -/
def updateProgress (i : String) (p : Nat) (s : StoreState) : StoreState :=
  { s with downloading :=
      s.downloading.map (fun t => if t.id = i then { t with progress := p } else t) }

/-- `completeDownload(trackId, filename)`: moves the first matching item from
`downloading` to `completed`, setting `progress: 100`, `completedAt` and
`filename`; state unchanged when the id is absent from `downloading`. -/
def completeDownload (i : String) (fn : String) (now : Nat) (s : StoreState) : StoreState :=
  match s.downloading.find? (fun t => decide (t.id = i)) with
  | none => s
  | some track =>
    { s with
      downloading := s.downloading.filter (fun t => decide (t.id ≠ i)),
      completed := s.completed ++
        [{ track with status := .completed, progress := 100,
                       completedAt := some now, filename := some fn }] }

/-- `failDownload(trackId, error)`: moves the first matching item from
`downloading` to `failed`, setting `error` and `failedAt`; state unchanged
when the id is absent from `downloading`. -/
def failDownload (i : String) (err : String) (now : Nat) (s : StoreState) : StoreState :=
  match s.downloading.find? (fun t => decide (t.id = i)) with
  | none => s
  | some track =>
    { s with
      downloading := s.downloading.filter (fun t => decide (t.id ≠ i)),
      failed := s.failed ++
        [{ track with status := .failed, error := some err, failedAt := some now }] }

/-- `retryFailed(trackId)`: moves the first matching item from `failed` back
to the tail of `queue`, with `status: "queued", error: undefined, progress: 0`;
state unchanged when the id is absent from `failed`. -/
def retryFailed (i : String) (s : StoreState) : StoreState :=
  match s.failed.find? (fun t => decide (t.id = i)) with
  | none => s
  | some track =>
    { s with
      failed := s.failed.filter (fun t => decide (t.id ≠ i)),
      queue := s.queue ++
        [{ track with status := .queued, error := none, progress := 0 }] }

/-- `clearCompleted()`. -/
def clearCompleted (s : StoreState) : StoreState := { s with completed := [] }

/-- `clearFailed()`. -/
def clearFailed (s : StoreState) : StoreState := { s with failed := [] }

/-- `setQuality(quality)`. -/
def setQuality (q : String) (s : StoreState) : StoreState := { s with quality := q }

/-- `DownloadManager` instance state: the `isProcessing` flag and the keys of
the `activeDownloads` map (track id → `AbortController`). -/
structure ManagerState where
  isProcessing : Bool
  activeDownloads : List String
deriving DecidableEq

/-- The manager constructed by `new DownloadManager()`. -/
def managerInit : ManagerState := { isProcessing := false, activeDownloads := [] }

/-- `stop()`: sets `isProcessing = false`, calls `controller.abort()` on every
entry of `activeDownloads` and clears the map.  Returns the new manager state
together with the list of track ids whose controllers were aborted. -/
def stopManager (m : ManagerState) : ManagerState × List String :=
  ({ isProcessing := false, activeDownloads := [] }, m.activeDownloads)

/-- The synchronous entry of `start()`: when `isProcessing` is already set it
returns at once, otherwise it sets `isProcessing = true` and the control loop
begins. -/
def startEnter (m : ManagerState) : ManagerState :=
  if m.isProcessing then m else { m with isProcessing := true }

/-- The error string recorded by `downloadTrackClientSide` when the fetch is
aborted (`failDownload(track.id, "Download cancelled")` in the `AbortError`
branch). -/
def downloadCancelledText : String := "Download cancelled"

/-- The store effect of the `AbortError` catch branch in
`downloadTrackClientSide`. -/
def onAbortError (i : String) (now : Nat) (s : StoreState) : StoreState :=
  failDownload i downloadCancelledText now s

/-- The accumulated store effect of all in-flight transfers failing with
`AbortError` after `stop()`: each currently `downloading` item's abort handler
runs in order. -/
def abortAllDownloads (now : Nat) (s : StoreState) : StoreState :=
  (s.downloading.map (·.id)).foldl (fun st i => onAbortError i now st) s

/-- The marked item a queue item becomes when its transfer is aborted. -/
def abortMark (now : Nat) (t : QueueItem) : QueueItem :=
  { t with status := .failed, error := some downloadCancelledText, failedAt := some now }

/-- The character class `[<>:"/\\|?*]` of `sanitizeFilename`. -/
def invalidFilenameChar (c : Char) : Bool :=
  c == '<' || c == '>' || c == ':' || c == '"' || c == '/' ||
  c == '\\' || c == '|' || c == '?' || c == '*'

/-- `filename.replace(invalid, "_")`. -/
def replaceInvalid (l : List Char) : List Char :=
  l.map (fun c => if invalidFilenameChar c then '_' else c)

/-- The whitespace class of JS `String.prototype.trim`: ECMAScript
*TrimString* strips *WhiteSpace* ∪ *LineTerminator*, i.e. TAB, LF, VT, FF,
CR, SPACE, NBSP, ZWNBSP (U+FEFF), the line/paragraph separators
U+2028/U+2029, and every Unicode space separator (category Zs): U+1680,
U+2000–U+200A, U+202F, U+205F, U+3000. -/
def jsWhitespace (c : Char) : Bool :=
  c.toNat = 0x09 || c.toNat = 0x0A || c.toNat = 0x0B || c.toNat = 0x0C ||
  c.toNat = 0x0D || c.toNat = 0x20 || c.toNat = 0xA0 || c.toNat = 0x1680 ||
  (0x2000 ≤ c.toNat && c.toNat ≤ 0x200A) ||
  c.toNat = 0x2028 || c.toNat = 0x2029 || c.toNat = 0x202F ||
  c.toNat = 0x205F || c.toNat = 0x3000 || c.toNat = 0xFEFF

/-- `.trim()`: strip leading and trailing whitespace. -/
def trimChars (l : List Char) : List Char :=
  ((l.dropWhile jsWhitespace).reverse.dropWhile jsWhitespace).reverse

/-- `sanitizeFilename(filename)`: replace the illegal characters by `_`, then
trim the result. -/
def sanitizeFilename (f : String) : String :=
  ⟨trimChars (replaceInvalid f.data)⟩

/-- The output filename computed by `downloadTrackClientSide`:
`` sanitizeFilename(`${track.artist} - ${track.title}.flac`) ``. -/
def clientSideFilename (artist title : String) : String :=
  sanitizeFilename (artist ++ " - " ++ title ++ ".flac")

/-- Modelled from the spec's words, for comparison with `clientSideFilename`:
"the template `{artist} - {title}.{ext}` with every occurrence of the
filesystem-illegal characters replaced by `_`" — replacement only, no trim. -/
def specTemplateFilename (artist title : String) : String :=
  ⟨replaceInvalid (artist ++ " - " ++ title ++ ".flac").data⟩

/-- One store operation: the exported mutators with their arguments, `Date.now()`
modelled as an explicit timestamp argument. -/
inductive StoreOp where
  | add (tracks : List Track) (now : Nat)
  | remove (i : String)
  | startDl (i : String) (now : Nat)
  | updProg (i : String) (p : Nat)
  | complete (i : String) (fn : String) (now : Nat)
  | fail (i : String) (err : String) (now : Nat)
  | retry (i : String)
  | clearC
  | clearF
  | setQ (q : String)

/-- Apply one store operation. -/
def applyOp (op : StoreOp) (s : StoreState) : StoreState :=
  match op with
  | .add tracks now => addToQueue tracks now s
  | .remove i => removeFromQueue i s
  | .startDl i now => startDownload i now s
  | .updProg i p => updateProgress i p s
  | .complete i fn now => completeDownload i fn now s
  | .fail i err now => failDownload i err now s
  | .retry i => retryFailed i s
  | .clearC => clearCompleted s
  | .clearF => clearFailed s
  | .setQ q => setQuality q s

/-- Run a sequence of store operations from a given state. -/
def runOpsFrom (ops : List StoreOp) (s : StoreState) : StoreState :=
  ops.foldl (fun st op => applyOp op st) s

/-- Run a sequence of store operations from the initial store. -/
def runOps (ops : List StoreOp) : StoreState := runOpsFrom ops initialStore

/-- The ids of all items currently present in the store. -/
def allIds (s : StoreState) : List String :=
  (s.queue ++ s.downloading ++ s.completed ++ s.failed).map (·.id)

/-- The (catalog id, timestamp) pairs an `add` operation offers to the store
(the whole batch, before the duplicate filter). -/
def addPairs (op : StoreOp) : List (Nat × Nat) :=
  match op with
  | .add tracks now => tracks.map (fun tr => (tr.tidal_id, now))
  | _ => []

/-- All (catalog id, timestamp) pairs offered by the `add` operations of a
sequence. -/
def allAddPairs (ops : List StoreOp) : List (Nat × Nat) :=
  match ops with
  | [] => []
  | op :: rest => addPairs op ++ allAddPairs rest

/-- The program counter of one `start()` control loop: at the top of the
`while`, or blocked on `await this.downloadTrack(track)` for a given item. -/
inductive LoopPhase where
  | idle
  | transferring (i : String)
deriving DecidableEq

/-- Whole-system state: the store, the shared `isProcessing` flag, and the
control loops currently alive (`stop()` followed by `start()` while a transfer
is still awaited leaves the old loop alive next to the new one). -/
structure SysState where
  store : StoreState
  isProcessing : Bool
  loops : List LoopPhase

/-- The system as it boots: empty store, manager not running. -/
def sysInit : SysState :=
  { store := initialStore, isProcessing := false, loops := [] }

/-- Small-step semantics of the system under the operations
enqueue / start / stop plus the internal steps of the control loops.
The guard check `downloading.length < maxConcurrent && queue.length > 0`
and the `startDownload` call inside `downloadTrackClientSide` execute
synchronously on the JS event loop, hence form one atomic step. -/
inductive SysStep : SysState → SysState → Prop where
  | enqueue (s : SysState) (tracks : List Track) (now : Nat) :
      SysStep s { s with store := addToQueue tracks now s.store }
  | startNew (s : SysState) :
      s.isProcessing = false →
      SysStep s { s with isProcessing := true, loops := .idle :: s.loops }
  | startNoop (s : SysState) :
      s.isProcessing = true →
      SysStep s s
  | stop (s : SysState) :
      SysStep s { s with isProcessing := false }
  | loopExit (s : SysState) (l₁ l₂ : List LoopPhase) :
      s.isProcessing = false →
      s.loops = l₁ ++ .idle :: l₂ →
      SysStep s { s with loops := l₁ ++ l₂ }
  | dispatch (s : SysState) (l₁ l₂ : List LoopPhase) (tr : QueueItem)
      (rest : List QueueItem) (now : Nat) :
      s.isProcessing = true →
      s.loops = l₁ ++ .idle :: l₂ →
      s.store.downloading.length < s.store.maxConcurrent →
      s.store.queue = tr :: rest →
      SysStep s { s with store := startDownload tr.id now s.store,
                         loops := l₁ ++ .transferring tr.id :: l₂ }
  | progress (s : SysState) (l₁ l₂ : List LoopPhase) (i : String) (p : Nat) :
      s.loops = l₁ ++ .transferring i :: l₂ →
      SysStep s { s with store := updateProgress i p s.store }
  | finishOk (s : SysState) (l₁ l₂ : List LoopPhase) (i : String)
      (fn : String) (now : Nat) :
      s.loops = l₁ ++ .transferring i :: l₂ →
      SysStep s { s with store := completeDownload i fn now s.store,
                         loops := l₁ ++ .idle :: l₂ }
  | finishFail (s : SysState) (l₁ l₂ : List LoopPhase) (i : String)
      (err : String) (now : Nat) :
      s.loops = l₁ ++ .transferring i :: l₂ →
      SysStep s { s with store := failDownload i err now s.store,
                         loops := l₁ ++ .idle :: l₂ }

/-- Reachability for the whole system. -/
def SysReach (s : SysState) : Prop := Relation.ReflTransGen SysStep sysInit s

/-- Internal steps only: what the manager does after `start()` when the
caller issues no further enqueue / start / stop (the stabilisation phase of
the claimed scenario). -/
inductive MgrStep : SysState → SysState → Prop where
  | dispatch (s : SysState) (l₁ l₂ : List LoopPhase) (tr : QueueItem)
      (rest : List QueueItem) (now : Nat) :
      s.isProcessing = true →
      s.loops = l₁ ++ .idle :: l₂ →
      s.store.downloading.length < s.store.maxConcurrent →
      s.store.queue = tr :: rest →
      MgrStep s { s with store := startDownload tr.id now s.store,
                         loops := l₁ ++ .transferring tr.id :: l₂ }
  | progress (s : SysState) (l₁ l₂ : List LoopPhase) (i : String) (p : Nat) :
      s.loops = l₁ ++ .transferring i :: l₂ →
      MgrStep s { s with store := updateProgress i p s.store }
  | finishOk (s : SysState) (l₁ l₂ : List LoopPhase) (i : String)
      (fn : String) (now : Nat) :
      s.loops = l₁ ++ .transferring i :: l₂ →
      MgrStep s { s with store := completeDownload i fn now s.store,
                         loops := l₁ ++ .idle :: l₂ }
  | finishFail (s : SysState) (l₁ l₂ : List LoopPhase) (i : String)
      (err : String) (now : Nat) :
      s.loops = l₁ ++ .transferring i :: l₂ →
      MgrStep s { s with store := failDownload i err now s.store,
                         loops := l₁ ++ .idle :: l₂ }

/-- Five distinct test tracks for the `maxConcurrent=2`, enqueue-5 scenario. -/
def fiveTracks : List Track :=
  [⟨101, "T1", "Ar"⟩, ⟨102, "T2", "Ar"⟩, ⟨103, "T3", "Ar"⟩,
   ⟨104, "T4", "Ar"⟩, ⟨105, "T5", "Ar"⟩]

/-- The scenario start state of claim C3: `maxConcurrent = 2`, five items
enqueued, `start()` called once. -/
def c3Start : SysState :=
  { store := addToQueue fiveTracks 0 { initialStore with maxConcurrent := 2 },
    isProcessing := true,
    loops := [.idle] }

/-- An input batch containing two descriptors with the same catalog id. -/
def dupBatch : List Track := [⟨1, "A", "X"⟩, ⟨1, "B", "X"⟩]

/-- A concrete item currently downloading (fixture). -/
def itemDl1 : QueueItem :=
  { tidal_id := 7, title := "A", artist := "Ar", id := "7-0", status := .downloading
  , progress := 42, addedAt := 0, startedAt := some 1, completedAt := none
  , failedAt := none, error := none, filename := none }

/-- A second concrete item currently downloading (fixture). -/
def itemDl2 : QueueItem :=
  { tidal_id := 8, title := "B", artist := "Br", id := "8-0", status := .downloading
  , progress := 10, addedAt := 0, startedAt := some 2, completedAt := none
  , failedAt := none, error := none, filename := none }

/-- A concrete failed item (fixture). -/
def itemFailed1 : QueueItem :=
  { tidal_id := 9, title := "C", artist := "Cr", id := "9-0", status := .failed
  , progress := 13, addedAt := 0, startedAt := some 3, completedAt := none
  , failedAt := some 4, error := some "HTTP 404", filename := none }

/-- A store with two items in flight (fixture for the stop-while-downloading
scenario). -/
def storeTwoDl : StoreState := { initialStore with downloading := [itemDl1, itemDl2] }

/-! ## Properties of the generated item ids -/

theorem natCharsAux_fuel_irrel :
    ∀ fuel₁ fuel₂ n : Nat, n ≤ fuel₁ → n ≤ fuel₂ →
      natCharsAux fuel₁ n = natCharsAux fuel₂ n := by
  intro fuel₁
  induction fuel₁ with
  | zero =>
    intro fuel₂ n h₁ _
    interval_cases n
    cases fuel₂ <;> simp [natCharsAux]
  | succ f ih =>
    intro fuel₂ n h₁ h₂
    cases fuel₂ with
    | zero =>
      interval_cases n
      simp [natCharsAux]
    | succ g =>
      by_cases hn : n < 10
      · simp [natCharsAux, hn]
      · have hd : n / 10 < n := Nat.div_lt_self (by omega) (by omega)
        simp only [natCharsAux, if_neg hn]
        rw [ih g (n / 10) (by omega) (by omega)]

theorem natChars_eq (n : Nat) :
    natChars n = if n < 10 then [digitChar n]
                 else natChars (n / 10) ++ [digitChar (n % 10)] := by
  cases n with
  | zero => simp [natChars, natCharsAux]
  | succ f =>
    by_cases hn : f + 1 < 10
    · simp [natChars, natCharsAux, hn]
    · have hd : (f + 1) / 10 < f + 1 := Nat.div_lt_self (by omega) (by omega)
      simp only [natChars, natCharsAux, if_neg hn]
      rw [natCharsAux_fuel_irrel f ((f + 1) / 10) ((f + 1) / 10) (by omega) (by omega)]

theorem digitChar_ne_dash : ∀ d : Nat, d < 10 → digitChar d ≠ '-' := by decide

theorem natChars_no_dash (n : Nat) : ∀ c ∈ natChars n, c ≠ '-' := by
  induction n using Nat.strong_induction_on with
  | _ n ih =>
    rw [natChars_eq]
    by_cases hn : n < 10
    · simpa [hn] using digitChar_ne_dash n hn
    · have hd : n / 10 < n := Nat.div_lt_self (by omega) (by omega)
      simp only [if_neg hn]
      intro c hc
      rcases List.mem_append.mp hc with h | h
      · exact ih (n / 10) hd c h
      · simp only [List.mem_singleton] at h
        subst h
        exact digitChar_ne_dash _ (Nat.mod_lt _ (by omega))

/-- Decoded value of a digit character. -/
def charVal (c : Char) : Nat := c.toNat - 48

/-- Decimal decoding of a character list. -/
def listVal (l : List Char) : Nat := l.foldl (fun a c => 10 * a + charVal c) 0

theorem digitChar_val : ∀ d : Nat, d < 10 → charVal (digitChar d) = d := by decide

theorem listVal_natChars (n : Nat) : listVal (natChars n) = n := by
  induction n using Nat.strong_induction_on with
  | _ n ih =>
    rw [natChars_eq]
    by_cases hn : n < 10
    · simp [hn, listVal, digitChar_val n hn]
    · have hd : n / 10 < n := Nat.div_lt_self (by omega) (by omega)
      have hm : n % 10 < 10 := Nat.mod_lt _ (by omega)
      simp only [if_neg hn, listVal, List.foldl_append, List.foldl_cons, List.foldl_nil]
      have := ih (n / 10) hd
      simp only [listVal] at this
      rw [this, digitChar_val _ hm]
      omega

theorem natChars_injective : Function.Injective natChars := by
  intro a b h
  have := listVal_natChars a
  rw [h, listVal_natChars] at this
  omega

theorem dash_split :
    ∀ u u' v v' : List Char, (∀ c ∈ u, c ≠ '-') → (∀ c ∈ u', c ≠ '-') →
      u ++ '-' :: v = u' ++ '-' :: v' → u = u' ∧ v = v' := by
  intro u
  induction u with
  | nil =>
    intro u' v v' _ hu' h
    cases u' with
    | nil => simpa using h
    | cons c t =>
      simp only [List.nil_append, List.cons_append, List.cons.injEq] at h
      exact absurd h.1.symm (hu' c (by simp))
  | cons c t ih =>
    intro u' v v' hu hu' h
    cases u' with
    | nil =>
      simp only [List.cons_append, List.nil_append, List.cons.injEq] at h
      exact absurd h.1 (hu c (by simp))
    | cons c' t' =>
      simp only [List.cons_append, List.cons.injEq] at h
      obtain ⟨rfl, h2⟩ := h
      obtain ⟨rfl, rfl⟩ :=
        ih t' v v' (fun x hx => hu x (by simp [hx])) (fun x hx => hu' x (by simp [hx])) h2
      exact ⟨rfl, rfl⟩

theorem mkId_injective :
    ∀ c t c' t' : Nat, mkId c t = mkId c' t' → c = c' ∧ t = t' := by
  intro c t c' t' h
  have hd : natChars c ++ '-' :: natChars t = natChars c' ++ '-' :: natChars t' :=
    congrArg String.data h
  obtain ⟨h1, h2⟩ :=
    dash_split (natChars c) (natChars c') (natChars t) (natChars t')
      (natChars_no_dash c) (natChars_no_dash c') hd
  exact ⟨natChars_injective h1, natChars_injective h2⟩

theorem mkIdP_injective : Function.Injective mkIdP := by
  intro ⟨c, t⟩ ⟨c', t'⟩ h
  obtain ⟨rfl, rfl⟩ := mkId_injective c t c' t' h
  rfl

/-! ## General list helpers -/

theorem subperm_append_compat {α : Type} {l₁ l₂ r₁ r₂ : List α}
    (h : List.Subperm l₁ l₂) (h' : List.Subperm r₁ r₂) :
    List.Subperm (l₁ ++ r₁) (l₂ ++ r₂) := by
  obtain ⟨u, hu, hus⟩ := h
  obtain ⟨v, hv, hvs⟩ := h'
  exact ⟨u ++ v, hu.append hv, hus.append hvs⟩

theorem subperm_nodup {α : Type} {l₁ l₂ : List α}
    (h : List.Subperm l₁ l₂) (hn : l₂.Nodup) : l₁.Nodup := by
  obtain ⟨u, hu, hus⟩ := h
  exact hu.nodup_iff.mp (hus.nodup hn)

theorem find?_middle {p : QueueItem → Bool} (a b : List QueueItem) (x : QueueItem)
    (ha : ∀ t ∈ a, p t = false) (hx : p x = true) :
    (a ++ x :: b).find? p = some x := by
  rw [List.find?_append, List.find?_eq_none.mpr (by simpa using ha),
    List.find?_cons_of_pos _ hx]
  rfl

theorem filter_ne_length_ge (l : List QueueItem) (i : String)
    (h : (l.map (·.id)).Nodup) :
    l.length ≤ (l.filter (fun t => decide (t.id ≠ i))).length + 1 := by
  induction l with
  | nil => simp
  | cons x t ih =>
    simp only [List.map_cons, List.nodup_cons, List.mem_map] at h
    rw [List.filter_cons]
    by_cases hx : x.id = i
    · have hkeep : t.filter (fun t => decide (t.id ≠ i)) = t := by
        apply List.filter_eq_self.mpr
        intro a ha
        simp only [decide_eq_true_eq]
        intro hai
        exact h.1 ⟨a, ha, by rw [hai, hx]⟩
      have hcond : (decide (x.id ≠ i)) = false := by simp [hx]
      rw [hcond]
      simp only [Bool.false_eq_true, if_false, List.length_cons]
      rw [hkeep]
    · have hcond : (decide (x.id ≠ i)) = true := by simp [hx]
      rw [hcond]
      simp only [if_true, List.length_cons]
      have := ih h.2
      omega

theorem map_eq_self_of {α : Type} (l : List α) (f : α → α)
    (h : ∀ a ∈ l, f a = a) : l.map f = l := by
  induction l with
  | nil => rfl
  | cons x t ih =>
    simp only [List.map_cons]
    rw [h x (by simp), ih (fun a ha => h a (by simp [ha]))]

theorem trimChars_eq_self (l : List Char)
    (h1 : ∀ a, l.head? = some a → jsWhitespace a = false)
    (h2 : ∀ a, l.getLast? = some a → jsWhitespace a = false) :
    trimChars l = l := by
  have d1 : l.dropWhile jsWhitespace = l := by
    cases l with
    | nil => rfl
    | cons a t => rw [List.dropWhile_cons, if_neg (by simp [h1 a rfl])]
  have d2 : l.reverse.dropWhile jsWhitespace = l.reverse := by
    cases hr : l.reverse with
    | nil => rfl
    | cons a t =>
      rw [List.dropWhile_cons, if_neg ?_]
      simp only [Bool.not_eq_true]
      refine h2 a ?_
      rw [← List.head?_reverse, hr]
      rfl
  unfold trimChars
  rw [d1, d2, List.reverse_reverse]

/-! ## Claim C7: stop is idempotent, start while running is a no-op -/

/-- C7: calling `stop()` twice leaves the manager in the same state as calling
it once (and the second call aborts no controller); calling `start()` while
`isProcessing` is already set returns immediately with the manager state
unchanged. -/
theorem c7_stop_idempotent_start_noop :
    (∀ m : ManagerState,
      (stopManager (stopManager m).1).1 = (stopManager m).1 ∧
      (stopManager (stopManager m).1).2 = []) ∧
    (∀ m : ManagerState, m.isProcessing = true → startEnter m = m) := by
  refine ⟨fun m => ⟨rfl, rfl⟩, fun m h => ?_⟩
  simp [startEnter, h]

/-- Witness for C7 at a concrete manager state. -/
theorem c7_witness :
    (stopManager (stopManager ⟨true, ["7-0"]⟩).1).1 = (stopManager ⟨true, ["7-0"]⟩).1 ∧
    startEnter ⟨true, ["7-0"]⟩ = ⟨true, ["7-0"]⟩ :=
  ⟨(c7_stop_idempotent_start_noop.1 ⟨true, ["7-0"]⟩).1,
   c7_stop_idempotent_start_noop.2 ⟨true, ["7-0"]⟩ rfl⟩

/-! ## Claim C9: collection-move mutators are no-ops on absent ids -/

/-- C9: `startDownload`, `updateProgress`, `completeDownload` and
`failDownload` leave the store state completely unchanged whenever the given
id is absent from their expected source collection. -/
theorem c9_mutators_noop_when_absent
    (s : StoreState) (i : String) (now p : Nat) (fn err : String) :
    ((∀ t ∈ s.queue, t.id ≠ i) → startDownload i now s = s) ∧
    ((∀ t ∈ s.downloading, t.id ≠ i) → updateProgress i p s = s) ∧
    ((∀ t ∈ s.downloading, t.id ≠ i) → completeDownload i fn now s = s) ∧
    ((∀ t ∈ s.downloading, t.id ≠ i) → failDownload i err now s = s) := by
  refine ⟨fun h => ?_, fun h => ?_, fun h => ?_, fun h => ?_⟩
  · rw [startDownload, List.find?_eq_none.mpr (by simpa using h)]
  · have heq : s.downloading.map (fun t => if t.id = i then { t with progress := p } else t)
        = s.downloading :=
      map_eq_self_of _ _ (fun t ht => by rw [if_neg (h t ht)])
    rw [updateProgress, heq]
  · rw [completeDownload, List.find?_eq_none.mpr (by simpa using h)]
  · rw [failDownload, List.find?_eq_none.mpr (by simpa using h)]

/-- Witness for C9: the four mutators at an id absent everywhere. -/
theorem c9_witness :
    startDownload "nope" 5 storeTwoDl = storeTwoDl ∧
    updateProgress "nope" 50 storeTwoDl = storeTwoDl ∧
    completeDownload "nope" "f.flac" 5 storeTwoDl = storeTwoDl ∧
    failDownload "nope" "HTTP 500" 5 storeTwoDl = storeTwoDl :=
  ⟨(c9_mutators_noop_when_absent storeTwoDl "nope" 5 50 "f.flac" "HTTP 500").1 (by decide),
   (c9_mutators_noop_when_absent storeTwoDl "nope" 5 50 "f.flac" "HTTP 500").2.1 (by decide),
   (c9_mutators_noop_when_absent storeTwoDl "nope" 5 50 "f.flac" "HTTP 500").2.2.1 (by decide),
   (c9_mutators_noop_when_absent storeTwoDl "nope" 5 50 "f.flac" "HTTP 500").2.2.2 (by decide)⟩

/-! ## Claim C10: removeFromQueue frame properties -/

/-- C10: `removeFromQueue` never touches `downloading`, `completed` or
`failed`; under the store's id-uniqueness discipline it removes at most one
item from `queue`; and for an id that sits in `downloading` (hence, ids being
unique across collections, not in `queue`) it changes no state at all — in
particular it does not cancel the in-flight transfer, being a pure queue
filter. -/
theorem c10_remove_frame (s : StoreState) (i : String) :
    (removeFromQueue i s).downloading = s.downloading ∧
    (removeFromQueue i s).completed = s.completed ∧
    (removeFromQueue i s).failed = s.failed ∧
    ((s.queue.map (·.id)).Nodup →
      s.queue.length ≤ (removeFromQueue i s).queue.length + 1) ∧
    (i ∈ s.downloading.map (·.id) →
      ((s.queue ++ s.downloading).map (·.id)).Nodup →
      removeFromQueue i s = s) := by
  refine ⟨rfl, rfl, rfl, fun hnd => ?_, fun hin hnd => ?_⟩
  · exact filter_ne_length_ge s.queue i hnd
  · have hq : ∀ t ∈ s.queue, t.id ≠ i := by
      rw [List.map_append, List.nodup_append] at hnd
      intro t ht hti
      exact hnd.2.2 (List.mem_map_of_mem (fun x => x.id) ht) (by rw [hti]; exact hin)
    have hkeep : s.queue.filter (fun t => decide (t.id ≠ i)) = s.queue :=
      List.filter_eq_self.mpr (fun t ht => by simpa using hq t ht)
    rw [removeFromQueue, hkeep]

/-- Witness for C10 at a concrete store: removing the id of a downloading
item changes nothing. -/
theorem c10_witness :
    removeFromQueue "7-0" storeTwoDl = storeTwoDl ∧
    storeTwoDl.queue.length ≤ (removeFromQueue "7-0" storeTwoDl).queue.length + 1 :=
  ⟨(c10_remove_frame storeTwoDl "7-0").2.2.2.2 (by decide) (by decide),
   (c10_remove_frame storeTwoDl "7-0").2.2.2.1 (by decide)⟩

/-! ## Claim C8: output filename -/

/-- C8 counterexample: for artist `" A"` (leading space) the code's filename
is NOT the spec's "template with illegal characters replaced" — the extra
`.trim()` in `sanitizeFilename` strips the leading space. -/
theorem c8_counterexample :
    clientSideFilename " A" "B" = "A - B.flac" ∧
    specTemplateFilename " A" "B" = " A - B.flac" ∧
    clientSideFilename " A" "B" ≠ specTemplateFilename " A" "B" := by
  refine ⟨?_, ?_, ?_⟩ <;> decide

/-- C8 amended: the filename equals the template with the illegal characters
`< > : " / \ | ? *` replaced by `_` and the result additionally trimmed of
leading/trailing whitespace; when the artist does not begin with whitespace
the trim is a no-op (the name always ends in `.flac`), and the two agree. -/
theorem c8_amended (artist title : String) (c : Char)
    (hc : artist.data.head? = some c) (hw : jsWhitespace c = false) :
    clientSideFilename artist title = specTemplateFilename artist title := by
  have hdata : (artist ++ " - " ++ title ++ ".flac").data
      = artist.data ++ (" - ").data ++ title.data ++ (".flac").data := by
    simp [String.data_append]
  obtain ⟨tl, htl⟩ : ∃ tl, artist.data = c :: tl := by
    cases h : artist.data with
    | nil => rw [h] at hc; simp at hc
    | cons a t =>
      rw [h] at hc
      simp only [List.head?_cons, Option.some.injEq] at hc
      exact ⟨t, by rw [hc]⟩
  have hrepl : trimChars (replaceInvalid (artist ++ " - " ++ title ++ ".flac").data)
      = replaceInvalid (artist ++ " - " ++ title ++ ".flac").data := by
    apply trimChars_eq_self
    · intro a ha
      rw [hdata, htl] at ha
      simp only [replaceInvalid, List.cons_append, List.map_cons, List.head?_cons,
        Option.some.injEq] at ha
      subst ha
      by_cases hinv : invalidFilenameChar c
      · simp only [if_pos hinv]
        decide
      · simp only [if_neg hinv]
        exact hw
    · intro a ha
      rw [hdata] at ha
      have hflac : replaceInvalid (".flac").data = ['.', 'f', 'l', 'a', 'c'] := by decide
      simp only [replaceInvalid, List.map_append] at ha
      rw [show (List.map (fun c => if invalidFilenameChar c = true then '_' else c)
          (".flac").data) = ['.', 'f', 'l', 'a', 'c'] from hflac] at ha
      rw [List.append_assoc, List.append_assoc, List.getLast?_append] at ha
      have : (List.getLast? (List.map (fun c =>
          if invalidFilenameChar c = true then '_' else c) title.data ++
          ['.', 'f', 'l', 'a', 'c'])) = some 'c' := by
        rw [List.getLast?_append]
        rfl
      rw [List.getLast?_append, this] at ha
      simp only [Option.or_some, Option.some.injEq] at ha
      subst ha
      decide
  simp only [clientSideFilename, sanitizeFilename, specTemplateFilename]
  rw [hrepl]

/-- Witness for C8 amended at a concrete artist/title. -/
theorem c8_witness :
    clientSideFilename "AC/DC" "T?NT" = specTemplateFilename "AC/DC" "T?NT" ∧
    clientSideFilename "AC/DC" "T?NT" = "AC_DC - T_NT.flac" :=
  ⟨c8_amended "AC/DC" "T?NT" 'A' rfl (by decide), by decide⟩

/-! ## Claim C5: retry moves exactly one item -/

/-- C5: when `failed` contains an item with the given id (written as the split
`failed = a ++ x :: b`, the id occurring nowhere else in `failed`, per the
store's id-uniqueness discipline), `retryFailed` removes exactly that item
from `failed` and appends it to the tail of `queue` with progress 0 and error
cleared, the catalog id / title / artist untouched, `downloading` and
`completed` untouched. -/
theorem c5_retry_moves_one (s : StoreState) (i : String)
    (a b : List QueueItem) (x : QueueItem)
    (hsplit : s.failed = a ++ x :: b) (hx : x.id = i)
    (ha : ∀ t ∈ a, t.id ≠ i) (hb : ∀ t ∈ b, t.id ≠ i) :
    retryFailed i s =
      { s with failed := a ++ b,
               queue := s.queue ++
                 [{ x with status := .queued, error := none, progress := 0 }] } ∧
    ({ x with status := .queued, error := none, progress := 0 } : QueueItem).tidal_id
      = x.tidal_id ∧
    ({ x with status := .queued, error := none, progress := 0 } : QueueItem).title
      = x.title ∧
    ({ x with status := .queued, error := none, progress := 0 } : QueueItem).artist
      = x.artist := by
  refine ⟨?_, rfl, rfl, rfl⟩
  have hfind : s.failed.find? (fun t => decide (t.id = i)) = some x := by
    rw [hsplit]
    exact find?_middle a b x (fun t ht => by simpa using ha t ht) (by simpa using hx)
  have hfilter : s.failed.filter (fun t => decide (t.id ≠ i)) = a ++ b := by
    rw [hsplit, List.filter_append, List.filter_cons]
    have hxc : (decide (x.id ≠ i)) = false := by simp [hx]
    rw [hxc]
    simp only [Bool.false_eq_true, if_false]
    rw [List.filter_eq_self.mpr (fun t ht => by simpa using ha t ht),
      List.filter_eq_self.mpr (fun t ht => by simpa using hb t ht)]
  rw [retryFailed, hfind, hfilter]

/-- Witness for C5 at a concrete store with one failed item. -/
theorem c5_witness :
    retryFailed "9-0" { initialStore with failed := [itemFailed1] } =
      { initialStore with
          failed := [],
          queue := [{ itemFailed1 with status := .queued, error := none, progress := 0 }] } :=
  ((c5_retry_moves_one { initialStore with failed := [itemFailed1] } "9-0"
    [] [] itemFailed1 rfl rfl (by simp) (by simp)).1)

/-! ## Claim C4: stop while downloading -/

/-- C4 counterexample: when the two in-flight transfers of `storeTwoDl` are
aborted after `stop()`, both items move to `failed` — but with the error text
`"Download cancelled"` produced by the `AbortError` branch, not `"cancelled"`
as the claim states. -/
theorem c4_counterexample :
    (abortAllDownloads 5 storeTwoDl).downloading = [] ∧
    (abortAllDownloads 5 storeTwoDl).failed.map (·.error)
      = [some "Download cancelled", some "Download cancelled"] ∧
    ("Download cancelled" : String) ≠ "cancelled" := by
  refine ⟨?_, ?_, ?_⟩ <;> decide

/-- Unfolded behaviour of the abort handlers over a whole downloading list. -/
theorem abortAll_go (now : Nat) :
    ∀ (l : List QueueItem) (s : StoreState), s.downloading = l →
      (l.map (·.id)).Nodup →
      (l.map (·.id)).foldl (fun st i => onAbortError i now st) s =
        { s with downloading := [], failed := s.failed ++ l.map (abortMark now) } := by
  intro l
  induction l with
  | nil =>
    intro s hdl _
    simp only [List.map_nil, List.foldl_nil, List.append_nil]
    cases s
    simp only [StoreState.mk.injEq] at hdl ⊢
    simp_all
  | cons x t ih =>
    intro s hdl hnd
    simp only [List.map_cons, List.nodup_cons, List.mem_map] at hnd
    simp only [List.map_cons, List.foldl_cons]
    have hstep : onAbortError x.id now s =
        { s with downloading := t, failed := s.failed ++ [abortMark now x] } := by
      rw [onAbortError, failDownload, hdl, List.find?_cons_of_pos _ (by simp)]
      have hfl : (x :: t).filter (fun u => decide (u.id ≠ x.id)) = t := by
        rw [List.filter_cons]
        have hxc : (decide (x.id ≠ x.id)) = false := by simp
        rw [hxc]
        simp only [Bool.false_eq_true, if_false]
        apply List.filter_eq_self.mpr
        intro u hu
        simp only [decide_eq_true_eq]
        intro hui
        exact hnd.1 ⟨u, hu, hui⟩
      rw [hfl]
      rfl
    rw [hstep]
    rw [ih { s with downloading := t, failed := s.failed ++ [abortMark now x] } rfl hnd.2]
    simp [List.append_assoc]

/-- C4 amended: `stop()` aborts the cancellation token of every transfer in
`activeDownloads`; each aborted transfer's handler moves its item from
`downloading` to `failed` with error text `"Download cancelled"`, so after all
handlers run `downloading` is empty and every aborted item sits in `failed`
with that error. -/
theorem c4_stop_aborts_all (m : ManagerState) (s : StoreState) (now : Nat) :
    (stopManager m).2 = m.activeDownloads ∧
    ((s.downloading.map (·.id)).Nodup →
      abortAllDownloads now s =
        { s with downloading := [],
                 failed := s.failed ++ s.downloading.map (abortMark now) } ∧
      ∀ t ∈ s.downloading, (abortMark now t).error = some downloadCancelledText) := by
  refine ⟨rfl, fun hnd => ⟨?_, fun t _ => rfl⟩⟩
  exact abortAll_go now s.downloading s rfl hnd

/-- Witness for C4 amended: the two-in-flight scenario, evaluated. -/
theorem c4_witness :
    abortAllDownloads 5 storeTwoDl =
      { storeTwoDl with downloading := [],
                        failed := storeTwoDl.failed ++ storeTwoDl.downloading.map (abortMark 5) } ∧
    (stopManager ⟨true, ["7-0", "8-0"]⟩).2 = ["7-0", "8-0"] :=
  ⟨((c4_stop_aborts_all ⟨true, ["7-0", "8-0"]⟩ storeTwoDl 5).2 (by decide)).1,
   (c4_stop_aborts_all ⟨true, ["7-0", "8-0"]⟩ storeTwoDl 5).1⟩

/-! ## Claim C1: enqueue deduplication -/

/-- C1 counterexample: a batch holding two descriptors with catalog id 1 on an
empty store.  `addToQueue` filters only against the already-present
collections, so BOTH descriptors are added: `addedCount = 2`,
`duplicateCount = 0`, and catalog id 1 appears twice in `queued` — against
the claimed `addedCount=1, duplicateCount=1, queued=[{title:"A"}]`. -/
theorem c1_counterexample :
    addedCount dupBatch initialStore = 2 ∧
    duplicateCount dupBatch initialStore = 0 ∧
    (addToQueue dupBatch 0 initialStore).queue.map (·.title) = ["A", "B"] ∧
    (addToQueue dupBatch 0 initialStore).queue.map (·.tidal_id) = [1, 1] := by
  refine ⟨?_, ?_, ?_, ?_⟩ <;> decide

theorem nodup_append_fresh {α : Type} (Q D C N : List α)
    (h : (Q ++ (D ++ C)).Nodup) (hN : N.Nodup)
    (hf : ∀ x ∈ N, x ∉ Q ++ (D ++ C)) :
    (Q ++ (N ++ (D ++ C))).Nodup := by
  have hperm : List.Perm (Q ++ (N ++ (D ++ C))) ((Q ++ (D ++ C)) ++ N) := by
    have h1 : List.Perm (Q ++ (N ++ (D ++ C))) (Q ++ ((D ++ C) ++ N)) :=
      List.Perm.append_left _ List.perm_append_comm
    have h2 : Q ++ ((D ++ C) ++ N) = (Q ++ (D ++ C)) ++ N := by
      simp [List.append_assoc]
    rw [h2] at h1
    exact h1
  refine hperm.nodup_iff.mpr (List.nodup_append.mpr ⟨h, hN, ?_⟩)
  intro x hx hxN
  exact hf x hxN hx

/-- C1 amended: `addToQueue` skips exactly the descriptors whose catalog id is
already present in queued/downloading/completed (added + duplicates = batch
size), and — provided the input batch itself has no repeated catalog id —
it preserves the invariant that no catalog id appears more than once across
{queued, downloading, completed}.  Intra-batch duplicates are NOT filtered
(see the counterexample). -/
theorem c1_enqueue_dedup (tracks : List Track) (now : Nat) (s : StoreState) :
    (addedCount tracks s + duplicateCount tracks s = tracks.length) ∧
    ((tracks.map (·.tidal_id)).Nodup → (existingCatalogIds s).Nodup →
      (existingCatalogIds (addToQueue tracks now s)).Nodup) := by
  constructor
  · have hle : (survivors tracks s).length ≤ tracks.length := by
      have := List.length_filter_le
        (fun tr => decide (tr.tidal_id ∉ existingCatalogIds s)) tracks
      simpa [survivors] using this
    simp only [addedCount, duplicateCount]
    omega
  · intro h1 h2
    by_cases hN : ((survivors tracks s).map (mkItem now)).isEmpty
    · rw [addToQueue]
      simp only [hN, if_true]
      exact h2
    · have hadd : addToQueue tracks now s =
          { s with queue := s.queue ++ (survivors tracks s).map (mkItem now) } := by
        rw [addToQueue]
        simp only [hN, Bool.false_eq_true, if_false]
      rw [hadd]
      have hTnodup : ((survivors tracks s).map (·.tidal_id)).Nodup := by
        have hsub : List.Sublist (survivors tracks s) tracks := List.filter_sublist _
        exact (hsub.map (·.tidal_id)).nodup h1
      have hTfresh : ∀ x ∈ (survivors tracks s).map (·.tidal_id),
          x ∉ existingCatalogIds s := by
        intro x hx
        obtain ⟨tr, htr, rfl⟩ := List.mem_map.mp hx
        have := (List.mem_filter.mp htr).2
        simpa using this
      have hmm : ((survivors tracks s).map (mkItem now)).map (·.tidal_id)
          = (survivors tracks s).map (·.tidal_id) := by
        rw [List.map_map]
        rfl
      simp only [existingCatalogIds, List.map_append, List.append_assoc] at h2 ⊢
      rw [hmm]
      apply nodup_append_fresh _ _ _ _ h2 hTnodup
      intro x hx
      have := hTfresh x hx
      simp only [existingCatalogIds, List.map_append, List.append_assoc] at this
      exact this

/-- Witness for C1 amended: a nodup batch on a store already holding catalog
id 1 — the duplicate is skipped, invariant preserved. -/
theorem c1_witness :
    addedCount [⟨1, "A2", "Y"⟩, ⟨2, "C", "Y"⟩] (addToQueue dupBatch 0 initialStore)
        + duplicateCount [⟨1, "A2", "Y"⟩, ⟨2, "C", "Y"⟩] (addToQueue dupBatch 0 initialStore)
        = 2 ∧
    (existingCatalogIds
        (addToQueue [⟨2, "C", "Y"⟩, ⟨3, "D", "Y"⟩] 7 (addToQueue [⟨1, "A", "X"⟩] 0 initialStore))).Nodup :=
  ⟨(c1_enqueue_dedup [⟨1, "A2", "Y"⟩, ⟨2, "C", "Y"⟩] 7 (addToQueue dupBatch 0 initialStore)).1,
   (c1_enqueue_dedup [⟨2, "C", "Y"⟩, ⟨3, "D", "Y"⟩] 7 (addToQueue [⟨1, "A", "X"⟩] 0 initialStore)).2
     (by decide) (by decide)⟩

/-! ## Claim C2: id uniqueness across the store lifetime -/

theorem count_filter_ne (L : List String) (i x : String) :
    List.count x (L.filter (fun j => decide (j ≠ i)))
      = if x = i then 0 else List.count x L := by
  by_cases hx : x = i
  · subst hx
    rw [if_pos rfl, List.count_eq_zero]
    intro hmem
    have := (List.mem_filter.mp hmem).2
    simp at this
  · rw [if_neg hx, List.count_filter (by simp [hx])]

theorem map_id_filter_ne (l : List QueueItem) (i : String) :
    (l.filter (fun t => decide (t.id ≠ i))).map (·.id)
      = (l.map (·.id)).filter (fun j => decide (j ≠ i)) := by
  induction l with
  | nil => rfl
  | cons x t ih =>
    rw [List.filter_cons, List.map_cons, List.filter_cons]
    cases h : decide (x.id ≠ i) with
    | false =>
      simp only [Bool.false_eq_true, if_false]
      exact ih
    | true =>
      simp only [if_true]
      rw [List.map_cons, ih]

theorem map_id_progress (l : List QueueItem) (i : String) (p : Nat) :
    (l.map (fun t => if t.id = i then { t with progress := p } else t)).map (·.id)
      = l.map (·.id) := by
  rw [List.map_map]
  apply List.map_congr_left
  intro t _
  by_cases h : t.id = i <;> simp [h]

/-- Effect of one store operation on the multiset of present ids: it is a
sub-permutation of the previous ids plus the ids the operation can mint. -/
theorem applyOp_ids_subperm (op : StoreOp) (s : StoreState) :
    List.Subperm (allIds (applyOp op s)) (allIds s ++ (addPairs op).map mkIdP) := by
  cases op with
  | add tracks now =>
    by_cases hN : ((survivors tracks s).map (mkItem now)).isEmpty
    · simp only [applyOp, addToQueue, hN, if_true]
      exact (List.sublist_append_left _ _).subperm
    · have hadd : addToQueue tracks now s =
          { s with queue := s.queue ++ (survivors tracks s).map (mkItem now) } := by
        rw [addToQueue]
        simp only [hN, Bool.false_eq_true, if_false]
      have hNW : List.Sublist
          (((survivors tracks s).map (mkItem now)).map (·.id))
          ((addPairs (StoreOp.add tracks now)).map mkIdP) := by
        simp only [addPairs, List.map_map, survivors]
        exact List.Sublist.map _ (List.filter_sublist _)
      simp only [applyOp]
      rw [hadd, List.subperm_ext_iff]
      intro x _
      simp only [allIds, List.map_append, List.count_append]
      have := hNW.count_le x
      omega
  | remove i =>
    simp only [applyOp, removeFromQueue, addPairs, List.map_nil, List.append_nil]
    rw [List.subperm_ext_iff]
    intro x _
    simp only [allIds, List.map_append, List.count_append, map_id_filter_ne,
      count_filter_ne]
    by_cases hx : x = i
    · simp [hx]
    · simp only [hx, if_false]
      omega
  | startDl i now =>
    cases hf : s.queue.find? (fun t => decide (t.id = i)) with
    | none =>
      simp only [applyOp, startDownload, hf, addPairs, List.map_nil, List.append_nil]
      exact List.Subperm.refl _
    | some track =>
      have htid : track.id = i := by simpa using List.find?_some hf
      have hmem : i ∈ s.queue.map (·.id) :=
        htid ▸ List.mem_map_of_mem _ (List.mem_of_find?_eq_some hf)
      simp only [applyOp, startDownload, hf, addPairs, List.map_nil, List.append_nil]
      rw [List.subperm_ext_iff]
      intro x _
      simp only [allIds, List.map_append, List.count_append, map_id_filter_ne,
        count_filter_ne, List.map_cons, List.map_nil]
      have hsing : List.count x [track.id] = if x = i then 1 else 0 := by
        rw [htid, List.count_singleton]
        by_cases hx : x = i
        · simp [hx]
        · have hbe : (i == x) = false := by
            simp only [beq_eq_false_iff_ne, ne_eq]
            exact fun h => hx h.symm
          simp [hbe, hx]
      rw [hsing]
      by_cases hx : x = i
      · have hpos : 0 < List.count i (s.queue.map (·.id)) :=
          List.count_pos_iff.mpr hmem
        simp only [hx, if_true]
        omega
      · simp only [hx, if_false]
        omega
  | updProg i p =>
    simp only [applyOp, updateProgress, addPairs, List.map_nil, List.append_nil]
    have heq : allIds { s with downloading := s.downloading.map (fun t => if t.id = i then { t with progress := p } else t) } = allIds s := by
      simp only [allIds, List.map_append, map_id_progress]
    rw [heq]
  | complete i fn now =>
    cases hf : s.downloading.find? (fun t => decide (t.id = i)) with
    | none =>
      simp only [applyOp, completeDownload, hf, addPairs, List.map_nil, List.append_nil]
      exact List.Subperm.refl _
    | some track =>
      have htid : track.id = i := by simpa using List.find?_some hf
      have hmem : i ∈ s.downloading.map (·.id) :=
        htid ▸ List.mem_map_of_mem _ (List.mem_of_find?_eq_some hf)
      simp only [applyOp, completeDownload, hf, addPairs, List.map_nil, List.append_nil]
      rw [List.subperm_ext_iff]
      intro x _
      simp only [allIds, List.map_append, List.count_append, map_id_filter_ne,
        count_filter_ne, List.map_cons, List.map_nil]
      have hsing : List.count x [track.id] = if x = i then 1 else 0 := by
        rw [htid, List.count_singleton]
        by_cases hx : x = i
        · simp [hx]
        · have hbe : (i == x) = false := by
            simp only [beq_eq_false_iff_ne, ne_eq]
            exact fun h => hx h.symm
          simp [hbe, hx]
      rw [hsing]
      by_cases hx : x = i
      · have hpos : 0 < List.count i (s.downloading.map (·.id)) :=
          List.count_pos_iff.mpr hmem
        simp only [hx, if_true]
        omega
      · simp only [hx, if_false]
        omega
  | fail i err now =>
    cases hf : s.downloading.find? (fun t => decide (t.id = i)) with
    | none =>
      simp only [applyOp, failDownload, hf, addPairs, List.map_nil, List.append_nil]
      exact List.Subperm.refl _
    | some track =>
      have htid : track.id = i := by simpa using List.find?_some hf
      have hmem : i ∈ s.downloading.map (·.id) :=
        htid ▸ List.mem_map_of_mem _ (List.mem_of_find?_eq_some hf)
      simp only [applyOp, failDownload, hf, addPairs, List.map_nil, List.append_nil]
      rw [List.subperm_ext_iff]
      intro x _
      simp only [allIds, List.map_append, List.count_append, map_id_filter_ne,
        count_filter_ne, List.map_cons, List.map_nil]
      have hsing : List.count x [track.id] = if x = i then 1 else 0 := by
        rw [htid, List.count_singleton]
        by_cases hx : x = i
        · simp [hx]
        · have hbe : (i == x) = false := by
            simp only [beq_eq_false_iff_ne, ne_eq]
            exact fun h => hx h.symm
          simp [hbe, hx]
      rw [hsing]
      by_cases hx : x = i
      · have hpos : 0 < List.count i (s.downloading.map (·.id)) :=
          List.count_pos_iff.mpr hmem
        simp only [hx, if_true]
        omega
      · simp only [hx, if_false]
        omega
  | retry i =>
    cases hf : s.failed.find? (fun t => decide (t.id = i)) with
    | none =>
      simp only [applyOp, retryFailed, hf, addPairs, List.map_nil, List.append_nil]
      exact List.Subperm.refl _
    | some track =>
      have htid : track.id = i := by simpa using List.find?_some hf
      have hmem : i ∈ s.failed.map (·.id) :=
        htid ▸ List.mem_map_of_mem _ (List.mem_of_find?_eq_some hf)
      simp only [applyOp, retryFailed, hf, addPairs, List.map_nil, List.append_nil]
      rw [List.subperm_ext_iff]
      intro x _
      simp only [allIds, List.map_append, List.count_append, map_id_filter_ne,
        count_filter_ne, List.map_cons, List.map_nil]
      have hsing : List.count x [track.id] = if x = i then 1 else 0 := by
        rw [htid, List.count_singleton]
        by_cases hx : x = i
        · simp [hx]
        · have hbe : (i == x) = false := by
            simp only [beq_eq_false_iff_ne, ne_eq]
            exact fun h => hx h.symm
          simp [hbe, hx]
      rw [hsing]
      by_cases hx : x = i
      · have hpos : 0 < List.count i (s.failed.map (·.id)) :=
          List.count_pos_iff.mpr hmem
        simp only [hx, if_true]
        omega
      · simp only [hx, if_false]
        omega
  | clearC =>
    simp only [applyOp, clearCompleted, addPairs, List.map_nil, List.append_nil]
    rw [List.subperm_ext_iff]
    intro x _
    simp only [allIds, List.map_append, List.count_append, List.map_nil,
      List.count_nil]
    omega
  | clearF =>
    simp only [applyOp, clearFailed, addPairs, List.map_nil, List.append_nil]
    rw [List.subperm_ext_iff]
    intro x _
    simp only [allIds, List.map_append, List.count_append, List.map_nil,
      List.count_nil]
    omega
  | setQ q =>
    simp only [applyOp, setQuality, addPairs, List.map_nil, List.append_nil]
    have heq : allIds { s with quality := q } = allIds s := rfl
    rw [heq]

/-- The present ids after any run are a sub-permutation of the ids mintable
from the (catalog id, timestamp) pairs offered by the `add` operations. -/
theorem runOps_ids_subperm :
    ∀ (ops : List StoreOp) (s : StoreState) (P : List (Nat × Nat)),
      List.Subperm (allIds s) (P.map mkIdP) →
      List.Subperm (allIds (runOpsFrom ops s)) ((P ++ allAddPairs ops).map mkIdP) := by
  intro ops
  induction ops with
  | nil =>
    intro s P h
    simpa [runOpsFrom, allAddPairs] using h
  | cons op rest ih =>
    intro s P h
    have hstep := applyOp_ids_subperm op s
    have hnext : List.Subperm (allIds (applyOp op s)) ((P ++ addPairs op).map mkIdP) := by
      refine hstep.trans ?_
      rw [List.map_append]
      exact subperm_append_compat h (List.Subperm.refl _)
    have := ih (applyOp op s) (P ++ addPairs op) hnext
    have hassoc : (P ++ addPairs op) ++ allAddPairs rest
        = P ++ allAddPairs (op :: rest) := by
      rw [allAddPairs, List.append_assoc]
    rw [hassoc] at this
    simpa [runOpsFrom] using this

/-- C2 counterexample: one `addToQueue` call whose batch repeats catalog id 1
(both descriptors pass the filter, see C1) at one `Date.now()` value mints the
id `"1-0"` twice: two distinct QueueItems (titles `"A"` and `"B"`) hold the
same id. -/
theorem c2_counterexample :
    (runOps [.add dupBatch 0]).queue.map (·.id) = ["1-0", "1-0"] ∧
    (runOps [.add dupBatch 0]).queue.map (·.title) = ["A", "B"] ∧
    ¬ (allIds (runOps [.add dupBatch 0])).Nodup := by
  refine ⟨?_, ?_, ?_⟩ <;> decide

/-- C2 amended: ids are unique across the store's lifetime provided the
(catalog id, `Date.now()` value) pairs offered by the enqueue calls are
pairwise distinct — i.e. no two descriptors with the same catalog id are
inserted at the same millisecond (the generated id is exactly
`` `${catalogId}-${now}` ``, which is injective in that pair). -/
theorem c2_ids_unique (ops : List StoreOp) (h : (allAddPairs ops).Nodup) :
    (allIds (runOps ops)).Nodup := by
  have h0 : List.Subperm (allIds initialStore) (([] : List (Nat × Nat)).map mkIdP) := by
    simp only [allIds, initialStore, List.map_nil, List.append_nil]
    exact List.nil_subperm
  have hrun := runOps_ids_subperm ops initialStore [] h0
  simp only [List.nil_append] at hrun
  exact subperm_nodup hrun (h.map mkIdP_injective)

/-- Witness for C2 amended: a five-operation lifetime — enqueue two tracks,
download one, fail it, retry it, enqueue another at a later timestamp — has
pairwise-distinct ids everywhere. -/
theorem c2_witness :
    (allAddPairs [StoreOp.add [⟨1, "A", "X"⟩, ⟨2, "B", "X"⟩] 0,
       StoreOp.startDl "1-0" 1, StoreOp.fail "1-0" "HTTP 404" 2,
       StoreOp.retry "1-0", StoreOp.add [⟨3, "C", "X"⟩] 5]).Nodup ∧
    (allIds (runOps [StoreOp.add [⟨1, "A", "X"⟩, ⟨2, "B", "X"⟩] 0,
       StoreOp.startDl "1-0" 1, StoreOp.fail "1-0" "HTTP 404" 2,
       StoreOp.retry "1-0", StoreOp.add [⟨3, "C", "X"⟩] 5])).Nodup :=
  ⟨by decide,
   c2_ids_unique [StoreOp.add [⟨1, "A", "X"⟩, ⟨2, "B", "X"⟩] 0,
       StoreOp.startDl "1-0" 1, StoreOp.fail "1-0" "HTTP 404" 2,
       StoreOp.retry "1-0", StoreOp.add [⟨3, "C", "X"⟩] 5] (by decide)⟩

/-! ## Store-level facts for the scheduler proofs -/

theorem addToQueue_downloading_mc (tracks : List Track) (now : Nat) (st : StoreState) :
    (addToQueue tracks now st).downloading = st.downloading ∧
    (addToQueue tracks now st).maxConcurrent = st.maxConcurrent := by
  by_cases h : ((survivors tracks st).map (mkItem now)).isEmpty <;>
    simp [addToQueue, h]

theorem startDownload_head (tr : QueueItem) (rest : List QueueItem) (now : Nat)
    (st : StoreState) (hq : st.queue = tr :: rest) :
    startDownload tr.id now st =
      { st with
          queue := (tr :: rest).filter (fun t => decide (t.id ≠ tr.id)),
          downloading := st.downloading ++
            [{ tr with status := .downloading, startedAt := some now }] } := by
  rw [startDownload, hq, List.find?_cons_of_pos _ (by simp)]

theorem updateProgress_downloading_mc (i : String) (p : Nat) (st : StoreState) :
    (updateProgress i p st).downloading.length = st.downloading.length ∧
    (updateProgress i p st).maxConcurrent = st.maxConcurrent := by
  simp [updateProgress]

theorem completeDownload_downloading_mc (i fn : String) (now : Nat) (st : StoreState) :
    (completeDownload i fn now st).downloading.length ≤ st.downloading.length ∧
    (completeDownload i fn now st).maxConcurrent = st.maxConcurrent := by
  cases hf : st.downloading.find? (fun t => decide (t.id = i)) with
  | none => simp [completeDownload, hf]
  | some track =>
    simp only [completeDownload, hf]
    exact ⟨List.length_filter_le _ _, trivial⟩

theorem failDownload_downloading_mc (i err : String) (now : Nat) (st : StoreState) :
    (failDownload i err now st).downloading.length ≤ st.downloading.length ∧
    (failDownload i err now st).maxConcurrent = st.maxConcurrent := by
  cases hf : st.downloading.find? (fun t => decide (t.id = i)) with
  | none => simp [failDownload, hf]
  | some track =>
    simp only [failDownload, hf]
    exact ⟨List.length_filter_le _ _, trivial⟩

/-! ## Claim C6: downloading never exceeds maxConcurrent -/

/-- C6: in every state reachable by any sequence of enqueue, start and stop
operations (interleaved with the control loops' own steps), the number of
items in `downloading` never exceeds `maxConcurrent`: the capacity check and
the `startDownload` transition form one synchronous step, and every other
operation leaves `downloading` no longer than before. -/
theorem c6_downloading_bounded (s : SysState) (h : SysReach s) :
    s.store.downloading.length ≤ s.store.maxConcurrent := by
  induction h with
  | refl => simp [sysInit, initialStore]
  | @tail b c hab hstep ih =>
    cases hstep with
    | enqueue tracks now =>
      show (addToQueue tracks now b.store).downloading.length
          ≤ (addToQueue tracks now b.store).maxConcurrent
      have h1 := addToQueue_downloading_mc tracks now b.store
      rw [h1.1, h1.2]
      exact ih
    | startNew hp => exact ih
    | startNoop hp => exact ih
    | stop => exact ih
    | loopExit l₁ l₂ hp hl => exact ih
    | dispatch l₁ l₂ tr rest now hp hl hcap hq =>
      show (startDownload tr.id now b.store).downloading.length
          ≤ (startDownload tr.id now b.store).maxConcurrent
      rw [startDownload_head tr rest now b.store hq]
      simp only [List.length_append, List.length_cons, List.length_nil]
      omega
    | progress l₁ l₂ i p hl =>
      show (updateProgress i p b.store).downloading.length
          ≤ (updateProgress i p b.store).maxConcurrent
      have h1 := updateProgress_downloading_mc i p b.store
      rw [h1.1, h1.2]
      exact ih
    | finishOk l₁ l₂ i fn now hl =>
      show (completeDownload i fn now b.store).downloading.length
          ≤ (completeDownload i fn now b.store).maxConcurrent
      have h1 := completeDownload_downloading_mc i fn now b.store
      rw [h1.2]
      exact le_trans h1.1 ih
    | finishFail l₁ l₂ i err now hl =>
      show (failDownload i err now b.store).downloading.length
          ≤ (failDownload i err now b.store).maxConcurrent
      have h1 := failDownload_downloading_mc i err now b.store
      rw [h1.2]
      exact le_trans h1.1 ih

/-- Witness for C6 at a concrete reachable state: after enqueueing five
tracks and starting, the bound holds (applied at one dispatch step). -/
theorem c6_witness :
    ({ store := addToQueue fiveTracks 0 initialStore, isProcessing := true,
       loops := [LoopPhase.idle] } : SysState).store.downloading.length
      ≤ ({ store := addToQueue fiveTracks 0 initialStore, isProcessing := true,
           loops := [LoopPhase.idle] } : SysState).store.maxConcurrent :=
  c6_downloading_bounded _
    (Relation.ReflTransGen.tail
      (Relation.ReflTransGen.tail Relation.ReflTransGen.refl
        (SysStep.enqueue sysInit fiveTracks 0))
      (SysStep.startNew _ rfl))

/-! ## Claim C3: the loop awaits each transfer (code bug) -/

theorem singleton_decomp {α : Type} (l₁ l₂ : List α) (x y : α)
    (h : l₁ ++ x :: l₂ = [y]) : l₁ = [] ∧ l₂ = [] ∧ x = y := by
  cases l₁ with
  | nil =>
    simp only [List.nil_append, List.cons.injEq] at h
    exact ⟨rfl, h.2, h.1⟩
  | cons a t =>
    simp only [List.cons_append, List.cons.injEq] at h
    exact absurd h.2 (by simp)

theorem startDownload_mc (i : String) (now : Nat) (st : StoreState) :
    (startDownload i now st).maxConcurrent = st.maxConcurrent := by
  cases hf : st.queue.find? (fun t => decide (t.id = i)) with
  | none => simp [startDownload, hf]
  | some track => simp [startDownload, hf]

/-- In the C3 scenario the single control loop is either at the top of the
`while` with nothing in flight, or awaiting exactly one transfer, whose item
is the sole element of `downloading`; `maxConcurrent` stays 2. -/
theorem c3_single_flight (s : SysState)
    (h : Relation.ReflTransGen MgrStep c3Start s) :
    ((s.loops = [LoopPhase.idle] ∧ s.store.downloading = []) ∨
      (∃ i x, s.loops = [LoopPhase.transferring i] ∧
        s.store.downloading = [x] ∧ x.id = i)) ∧
    s.store.maxConcurrent = 2 := by
  induction h with
  | refl =>
    exact ⟨Or.inl ⟨rfl, by decide⟩, by decide⟩
  | @tail b c hab hstep ih =>
    obtain ⟨hinv, hmc⟩ := ih
    cases hstep with
    | dispatch l₁ l₂ tr rest now hp hl hcap hq =>
      refine ⟨?_, ?_⟩
      · rcases hinv with ⟨hl0, hdl⟩ | ⟨i, x, hl0, hdl, hid⟩
        · obtain ⟨h1, h2, -⟩ := singleton_decomp _ _ _ _ (hl.symm.trans hl0)
          subst h1
          subst h2
          right
          refine ⟨tr.id, { tr with status := .downloading, startedAt := some now },
            rfl, ?_, rfl⟩
          show (startDownload tr.id now b.store).downloading = _
          rw [startDownload_head tr rest now b.store hq]
          show b.store.downloading ++ _ = _
          rw [hdl]
          rfl
        · obtain ⟨-, -, h3⟩ := singleton_decomp _ _ _ _ (hl.symm.trans hl0)
          exact absurd h3 (by simp)
      · show (startDownload tr.id now b.store).maxConcurrent = 2
        rw [startDownload_mc]
        exact hmc
    | progress l₁ l₂ i p hl =>
      refine ⟨?_, hmc⟩
      rcases hinv with ⟨hl0, hdl⟩ | ⟨i', x, hl0, hdl, hid⟩
      · obtain ⟨-, -, h3⟩ := singleton_decomp _ _ _ _ (hl.symm.trans hl0)
        exact absurd h3 (by simp)
      · obtain ⟨h1, h2, h3⟩ := singleton_decomp _ _ _ _ (hl.symm.trans hl0)
        subst h1
        subst h2
        have hii : i = i' := by
          injection h3
        subst hii
        right
        refine ⟨i, { x with progress := p }, ?_, ?_, hid⟩
        · show b.loops = _
          rw [hl0]
        · show (updateProgress i p b.store).downloading = _
          simp [updateProgress, hdl, hid]
    | finishOk l₁ l₂ i fn now hl =>
      refine ⟨?_, ?_⟩
      case _ =>
        rcases hinv with ⟨hl0, hdl⟩ | ⟨i', x, hl0, hdl, hid⟩
        · obtain ⟨-, -, h3⟩ := singleton_decomp _ _ _ _ (hl.symm.trans hl0)
          exact absurd h3 (by simp)
        · obtain ⟨h1, h2, h3⟩ := singleton_decomp _ _ _ _ (hl.symm.trans hl0)
          subst h1
          subst h2
          have hii : i = i' := by
            injection h3
          subst hii
          left
          refine ⟨rfl, ?_⟩
          have hfind : b.store.downloading.find? (fun t => decide (t.id = i))
              = some x := by
            rw [hdl]
            exact List.find?_cons_of_pos _ (by simp [hid])
          show (completeDownload i fn now b.store).downloading = []
          simp only [completeDownload, hfind]
          show b.store.downloading.filter (fun t => decide (t.id ≠ i)) = []
          rw [hdl]
          simp [hid]
      case _ =>
        have := completeDownload_downloading_mc i fn now b.store
        show (completeDownload i fn now b.store).maxConcurrent = 2
        rw [this.2]
        exact hmc
    | finishFail l₁ l₂ i err now hl =>
      refine ⟨?_, ?_⟩
      case _ =>
        rcases hinv with ⟨hl0, hdl⟩ | ⟨i', x, hl0, hdl, hid⟩
        · obtain ⟨-, -, h3⟩ := singleton_decomp _ _ _ _ (hl.symm.trans hl0)
          exact absurd h3 (by simp)
        · obtain ⟨h1, h2, h3⟩ := singleton_decomp _ _ _ _ (hl.symm.trans hl0)
          subst h1
          subst h2
          have hii : i = i' := by
            injection h3
          subst hii
          left
          refine ⟨rfl, ?_⟩
          have hfind : b.store.downloading.find? (fun t => decide (t.id = i))
              = some x := by
            rw [hdl]
            exact List.find?_cons_of_pos _ (by simp [hid])
          show (failDownload i err now b.store).downloading = []
          simp only [failDownload, hfind]
          show b.store.downloading.filter (fun t => decide (t.id ≠ i)) = []
          rw [hdl]
          simp [hid]
      case _ =>
        have := failDownload_downloading_mc i err now b.store
        show (failDownload i err now b.store).maxConcurrent = 2
        rw [this.2]
        exact hmc

/-- C3 (bug evaluation): in the claimed scenario — `maxConcurrent = 2`, five
items enqueued, `start()` called — `await this.downloadTrack(track)` blocks
the control loop on each transfer, so in EVERY state the manager's stabilising
steps can reach, `downloading.length ≤ 1` while `maxConcurrent = 2`: the
claimed stabilised state with `downloading.length == 2` is unreachable. -/
theorem c3_loop_blocks_on_transfer (s : SysState)
    (h : Relation.ReflTransGen MgrStep c3Start s) :
    s.store.downloading.length ≤ 1 ∧ s.store.maxConcurrent = 2 ∧
    s.store.downloading.length ≠ 2 := by
  obtain ⟨hinv, hmc⟩ := c3_single_flight s h
  rcases hinv with ⟨-, hdl⟩ | ⟨i, x, -, hdl, -⟩ <;> rw [hdl] <;> simp [hmc]

/-- Witness for C3: one dispatch step from the scenario start — the reached
state has exactly one item in flight, not two. -/
theorem c3_witness :
    ({ c3Start with
        store := startDownload (mkItem 0 ⟨101, "T1", "Ar"⟩).id 1 c3Start.store,
        loops := [] ++ LoopPhase.transferring (mkItem 0 ⟨101, "T1", "Ar"⟩).id :: [] }
      : SysState).store.downloading.length ≤ 1 ∧
    ({ c3Start with
        store := startDownload (mkItem 0 ⟨101, "T1", "Ar"⟩).id 1 c3Start.store,
        loops := [] ++ LoopPhase.transferring (mkItem 0 ⟨101, "T1", "Ar"⟩).id :: [] }
      : SysState).store.maxConcurrent = 2 ∧
    ({ c3Start with
        store := startDownload (mkItem 0 ⟨101, "T1", "Ar"⟩).id 1 c3Start.store,
        loops := [] ++ LoopPhase.transferring (mkItem 0 ⟨101, "T1", "Ar"⟩).id :: [] }
      : SysState).store.downloading.length ≠ 2 :=
  c3_loop_blocks_on_transfer _
    (Relation.ReflTransGen.tail Relation.ReflTransGen.refl
      (MgrStep.dispatch c3Start [] [] (mkItem 0 ⟨101, "T1", "Ar"⟩)
        [mkItem 0 ⟨102, "T2", "Ar"⟩, mkItem 0 ⟨103, "T3", "Ar"⟩,
         mkItem 0 ⟨104, "T4", "Ar"⟩, mkItem 0 ⟨105, "T5", "Ar"⟩] 1
        rfl rfl (by decide) (by decide)))
